import Mathlib

/-!
Verification of the workflow-run state engine (engine/api/workflow/dao_run.go)
against its specification. Go functions are shallowly embedded as Lean
functions; the database tables touched by the dao are explicit list-valued
state, and the SQL queries issued by the dao are embedded by their standard
SQL semantics on that state.
-/

deriving instance DecidableEq for Except

namespace Cds

/-- Embeds sdk.WorkflowRunInfo: one info/error log entry attached to a run. -/
structure WorkflowRunInfo where
  message : String
  isError : Bool
deriving DecidableEq, Repr, Inhabited

/-- Embeds the part of sdk.Workflow the dao touches: identity, project key and
name (used by nextRunNumber and stored as the run's snapshot). -/
structure Workflow where
  id : Int
  projectKey : String
  name : String
deriving DecidableEq, Repr, Inhabited

/-- Embeds a row of the project table as joined by the dao queries. -/
structure ProjectRow where
  id : Int
  projectkey : String
deriving DecidableEq, Repr, Inhabited

/-- Embeds a row of the workflow table as joined by the dao queries. -/
structure WorkflowRow where
  id : Int
  projectID : Int
  name : String
deriving DecidableEq, Repr, Inhabited

/-- Embeds sdk.WorkflowNodeRun / a row of table workflow_node_run: one
execution attempt of one node within a run. -/
structure WorkflowNodeRun where
  id : Int
  workflowRunID : Int
  workflowNodeID : Int
  subNumber : Int
  status : String
deriving DecidableEq, Repr, Inhabited

/-- Embeds sdk.WorkflowRunTag / a row of table workflow_run_tag. The tag key
and value are lists of characters so that the comma aggregation and splitting
done by GetTagsAndValue can be stated precisely. -/
structure WorkflowRunTag where
  workflowRunID : Int
  tag : List Char
  value : List Char
deriving DecidableEq, Repr, Inhabited

/-- Embeds sdk.WorkflowRun (the dao type Run): the structured fields of a
workflow_run row together with the in-memory node-run map and tags. The Go
map from node id to node-run slice is an association list keyed by node id. -/
structure WorkflowRun where
  id : Int
  num : Int
  projectID : Int
  workflowID : Int
  status : String
  start : Nat
  lastModified : Nat
  workflow : Workflow
  infos : List WorkflowRunInfo
  workflowNodeRuns : List (Int × List WorkflowNodeRun)
  tags : List WorkflowRunTag
deriving DecidableEq, Repr, Inhabited

/-- Embeds the database state the dao reads and writes: the joined tables,
plus the set of row locks currently held (run id paired with the id of the
transaction holding the lock), which gives the semantics of the SQL
"for update nowait" clause issued by loadAndLockRunByID. -/
structure DB where
  projects : List ProjectRow
  workflows : List WorkflowRow
  runRows : List WorkflowRun
  nodeRunRows : List WorkflowNodeRun
  tagRows : List WorkflowRunTag
  locks : List (Int × Int)
deriving DecidableEq, Repr, Inhabited

/-- Embeds updateWorkflowRun (dao_run.go lines 27-42): it stamps LastModified
with the current time, then walks the run's Infos and forces Status to
"Fail" for every entry flagged as an error; the resulting value is exactly
what db.Update persists for the row. -/
def updateWorkflowRun (now : Nat) (w : WorkflowRun) : WorkflowRun :=
  let w1 : WorkflowRun := { w with lastModified := now }
  w1.infos.foldl
    (fun acc info => if info.isError then { acc with status := "Fail" } else acc) w1

/-- Embeds UpdateWorkflowRunStatus (dao_run.go lines 45-52): a direct SQL
update setting status and last_modified on the row with the given id. -/
def UpdateWorkflowRunStatus (db : DB) (now : Nat) (id : Int) (status : String) : DB :=
  { db with
    runRows := db.runRows.map fun r =>
      if r.id == id then { r with status := status, lastModified := now } else r }

theorem updateWorkflowRun_foldl_status (l : List WorkflowRunInfo) (acc : WorkflowRun) :
    (l.foldl
      (fun acc info => if info.isError then { acc with status := "Fail" } else acc)
      acc).status =
      (if l.any (fun i => i.isError) then "Fail" else acc.status) := by
  induction l generalizing acc with
  | nil => simp
  | cons i l ih =>
    by_cases h : i.isError
    · simp [h, ih]
    · simp [h, ih]

theorem updateWorkflowRun_status (now : Nat) (w : WorkflowRun) :
    (updateWorkflowRun now w).status =
      (if w.infos.any (fun i => i.isError) then "Fail" else w.status) := by
  unfold updateWorkflowRun
  rw [updateWorkflowRun_foldl_status]

/-- C1: for every run whose infos list contains at least one entry flagged as
an error, updateWorkflowRun persists status Fail, whatever the statuses of
the node-runs are. -/
theorem updateWorkflowRun_error_info_forces_fail (now : Nat) (w : WorkflowRun)
    (h : ∃ i ∈ w.infos, i.isError = true) :
    (updateWorkflowRun now w).status = "Fail" := by
  rw [updateWorkflowRun_status]
  have : w.infos.any (fun i => i.isError) = true := by
    rcases h with ⟨i, hi, he⟩
    exact List.any_eq_true.2 ⟨i, hi, he⟩
  rw [this]
  rfl

def runWithErrorInfo : WorkflowRun :=
  { id := 1, num := 1, projectID := 1, workflowID := 1, status := "Building",
    start := 0, lastModified := 0, workflow := { id := 1, projectKey := "P", name := "W" },
    infos := [{ message := "boom", isError := true }],
    workflowNodeRuns := [(1, [{ id := 1, workflowRunID := 1, workflowNodeID := 1,
                                subNumber := 0, status := "Success" }])],
    tags := [] }

theorem updateWorkflowRun_error_info_forces_fail_witness :
    (∃ i ∈ runWithErrorInfo.infos, i.isError = true) ∧
      (updateWorkflowRun 5 runWithErrorInfo).status = "Fail" := by
  refine ⟨by decide, updateWorkflowRun_error_info_forces_fail 5 runWithErrorInfo (by decide)⟩

def runStatusSuccessNoInfo : WorkflowRun :=
  { id := 1, num := 1, projectID := 1, workflowID := 1, status := "Success",
    start := 0, lastModified := 0, workflow := { id := 1, projectKey := "P", name := "W" },
    infos := [], workflowNodeRuns := [], tags := [] }

def runStatusBuildingNoInfo : WorkflowRun :=
  { runStatusSuccessNoInfo with status := "Building" }

/-- C2 counterexample: two runs with identical info entries and identical
node-run statuses are persisted by updateWorkflowRun with different statuses,
so the persisted status is not a pure function of node-run statuses and info
entries; the incoming hand-set status leaks through the mutation. -/
theorem persisted_status_not_pure_function_counterexample :
    runStatusSuccessNoInfo.infos = runStatusBuildingNoInfo.infos ∧
      runStatusSuccessNoInfo.workflowNodeRuns = runStatusBuildingNoInfo.workflowNodeRuns ∧
      (updateWorkflowRun 0 runStatusSuccessNoInfo).status ≠
        (updateWorkflowRun 0 runStatusBuildingNoInfo).status := by
  decide

/-- C2 amended: the only recomputation applied on mutation is the error-info
rule of updateWorkflowRun, a function of the info entries and the incoming
status alone (Fail if any error info, otherwise the caller-supplied status
unchanged); UpdateWorkflowRunStatus persists the caller's status verbatim,
with no recomputation at all. -/
theorem persisted_status_recomputation (now now2 : Nat) (w : WorkflowRun)
    (db : DB) (id : Int) (s : String) :
    (updateWorkflowRun now w).status =
        (if w.infos.any (fun i => i.isError) then "Fail" else w.status) ∧
      ((UpdateWorkflowRunStatus db now2 id s).runRows.filter
          (fun r => r.id == id)).all (fun r => r.status == s) = true := by
  refine ⟨updateWorkflowRun_status now w, ?_⟩
  simp only [UpdateWorkflowRunStatus, List.all_eq_true, List.mem_filter]
  rintro r ⟨hr, hid⟩
  rcases List.mem_map.1 hr with ⟨r0, _, rfl⟩
  by_cases h : (r0.id == id) = true
  · simp [h]
  · rw [if_neg h] at hid
    exact absurd hid h

/-- Errors surfaced by the load path of the dao: sql.ErrNoRows is mapped by
loadRun to sdk.ErrWorkflowNotFound; a row already locked by another
transaction makes a "for update nowait" query fail with a lock error; a
malformed persisted blob is a serialization error. -/
inductive DBError where
  | workflowNotFound
  | lockConflict
  | serialization
deriving DecidableEq, Repr

/-- Ordering used by loadRun for node runs: descending sub-number. -/
def nodeRunGE (a b : WorkflowNodeRun) : Prop :=
  b.subNumber ≤ a.subNumber

instance : DecidableRel nodeRunGE := fun a b =>
  inferInstanceAs (Decidable (b.subNumber ≤ a.subNumber))

instance : IsTotal WorkflowNodeRun nodeRunGE :=
  ⟨fun a b => le_total b.subNumber a.subNumber⟩

instance : IsTrans WorkflowNodeRun nodeRunGE :=
  ⟨fun _ _ _ hab hbc => le_trans hbc hab⟩

/-- Embeds the Go construction of the node-run map in loadRun: each row is
appended to the map entry of its WorkflowNodeID in iteration order, so the
entry for a key holds exactly the rows carrying that key, in row order. -/
def groupByNode (rows : List WorkflowNodeRun) : List (Int × List WorkflowNodeRun) :=
  ((rows.map fun n => n.workflowNodeID).dedup).map
    fun k => (k, rows.filter fun n => n.workflowNodeID == k)

/-- Embeds the node-run part of loadRun (dao_run.go lines 249-272): the SQL
query selects the rows of the run ordered by sub_num descending, the rows
are grouped by node id into the map, and each map entry is then sorted by
SubNumber descending with sort.Slice (modelled, like the SQL ordering, by an
insertion sort, which realizes the same sortedness contract). -/
def loadRunNodeRuns (rows : List WorkflowNodeRun) (runID : Int) :
    List (Int × List WorkflowNodeRun) :=
  let dbNodeRuns :=
    List.insertionSort nodeRunGE (rows.filter fun n => n.workflowRunID == runID)
  (groupByNode dbNodeRuns).map fun kv => (kv.1, List.insertionSort nodeRunGE kv.2)

/-- Embeds loadTagsByRunID (dao_run.go lines 283-293): all tag rows of the
run. -/
def loadTagsByRunID (db : DB) (runID : Int) : List WorkflowRunTag :=
  db.tagRows.filter fun t => t.workflowRunID == runID

/-- Embeds loadRun (dao_run.go lines 239-281). rows is the result set of the
caller's SQL query over the run table; SelectOne takes its first row, and an
empty result is sql.ErrNoRows, mapped to sdk.ErrWorkflowNotFound. When the
query carries "for update nowait" (only loadAndLockRunByID does), SQL gives
it these semantics: if the row is already locked by another transaction the
query fails at once with a lock error instead of waiting, and otherwise this
transaction acquires the exclusive row lock. The run is then completed with
its grouped, descending-sorted node runs and its tags. -/
def loadRun (db : DB) (tx : Int) (rows : List WorkflowRun) (forUpdateNoWait : Bool) :
    Except DBError (WorkflowRun × DB) :=
  match rows with
  | [] => .error .workflowNotFound
  | r :: _ =>
    if forUpdateNoWait && db.locks.any (fun p => p.1 == r.id && p.2 != tx) then
      .error .lockConflict
    else
      let db1 := if forUpdateNoWait then { db with locks := (r.id, tx) :: db.locks } else db
      .ok ({ r with
              workflowNodeRuns := loadRunNodeRuns db.nodeRunRows r.id,
              tags := loadTagsByRunID db r.id }, db1)

/-- Does the run row join a project with this key and a workflow with this
name, as in the SQL of LoadRun, LoadLastRun and LoadRuns. -/
def runMatchesKeyName (db : DB) (projectkey workflowname : String) (r : WorkflowRun) : Bool :=
  (db.projects.any fun p => p.id == r.projectID && p.projectkey == projectkey) &&
    (db.workflows.any fun w => w.id == r.workflowID && w.name == workflowname)

/-- Ordering used by LoadLastRun: descending run number. -/
def runNumGE (a b : WorkflowRun) : Prop :=
  b.num ≤ a.num

instance : DecidableRel runNumGE := fun a b =>
  inferInstanceAs (Decidable (b.num ≤ a.num))

instance : IsTotal WorkflowRun runNumGE :=
  ⟨fun a b => le_total b.num a.num⟩

instance : IsTrans WorkflowRun runNumGE :=
  ⟨fun _ _ _ hab hbc => le_trans hbc hab⟩

/-- Embeds LoadRun (dao_run.go lines 146-155). -/
def LoadRun (db : DB) (tx : Int) (projectkey workflowname : String) (number : Int) :
    Except DBError (WorkflowRun × DB) :=
  loadRun db tx
    (db.runRows.filter fun r =>
      runMatchesKeyName db projectkey workflowname r && r.num == number) false

/-- Embeds LoadLastRun (dao_run.go lines 134-143): matching runs ordered by
num descending, limit 1. -/
def LoadLastRun (db : DB) (tx : Int) (projectkey workflowname : String) :
    Except DBError (WorkflowRun × DB) :=
  loadRun db tx
    ((List.insertionSort runNumGE
      (db.runRows.filter fun r => runMatchesKeyName db projectkey workflowname r)).take 1)
    false

/-- Embeds LoadRunByID (dao_run.go lines 168-173). -/
def LoadRunByID (db : DB) (tx : Int) (id : Int) : Except DBError (WorkflowRun × DB) :=
  loadRun db tx (db.runRows.filter fun r => r.id == id) false

/-- Embeds LoadRunByIDAndProjectKey (dao_run.go lines 158-165). -/
def LoadRunByIDAndProjectKey (db : DB) (tx : Int) (projectkey : String) (id : Int) :
    Except DBError (WorkflowRun × DB) :=
  loadRun db tx
    (db.runRows.filter fun r =>
      (db.projects.any fun p => p.id == r.projectID && p.projectkey == projectkey) &&
        r.id == id) false

/-- Embeds loadAndLockRunByID (dao_run.go lines 175-180): same row selection
as LoadRunByID, with "for update nowait". -/
def loadAndLockRunByID (db : DB) (tx : Int) (id : Int) : Except DBError (WorkflowRun × DB) :=
  loadRun db tx (db.runRows.filter fun r => r.id == id) true

/-- Per-table uniqueness of (run, node, sub-number) among stored node runs:
each attempt of a node within a run has its own sub-number. -/
def NodeRunRowsUnique (rows : List WorkflowNodeRun) : Prop :=
  rows.Pairwise fun a b =>
    a.workflowRunID = b.workflowRunID → a.workflowNodeID = b.workflowNodeID →
      a.subNumber ≠ b.subNumber

theorem loadRunNodeRuns_pairwise (rows : List WorkflowNodeRun) (runID : Int)
    (huniq : NodeRunRowsUnique rows) :
    ∀ kv ∈ loadRunNodeRuns rows runID,
      kv.2.Pairwise fun a b => b.subNumber < a.subNumber := by
  intro kv hkv
  unfold loadRunNodeRuns at hkv
  set P : WorkflowNodeRun → WorkflowNodeRun → Prop := fun a b =>
    a.workflowRunID = b.workflowRunID → a.workflowNodeID = b.workflowNodeID →
      a.subNumber ≠ b.subNumber with hP
  have hPsymm : ∀ {x y : WorkflowNodeRun}, P x y → P y x := by
    intro x y hxy h1 h2 heq
    exact hxy h1.symm h2.symm heq.symm
  have hl0 : (rows.filter fun n => n.workflowRunID == runID).Pairwise P :=
    List.Pairwise.sublist (List.filter_sublist rows) huniq
  have hperm := List.perm_insertionSort nodeRunGE
    (rows.filter fun n => n.workflowRunID == runID)
  have hl1 : (List.insertionSort nodeRunGE
      (rows.filter fun n => n.workflowRunID == runID)).Pairwise P :=
    (hperm.pairwise_iff hPsymm).2 hl0
  rcases List.mem_map.1 hkv with ⟨kv0, hkv0, rfl⟩
  rcases List.mem_map.1 hkv0 with ⟨k, _, rfl⟩
  set l1 := List.insertionSort nodeRunGE
    (rows.filter fun n => n.workflowRunID == runID) with hl1def
  set g := l1.filter fun n => n.workflowNodeID == k with hgdef
  have hgP : g.Pairwise P := List.Pairwise.sublist (List.filter_sublist l1) hl1
  have hmemg : ∀ x ∈ g, x.workflowNodeID = k ∧ x.workflowRunID = runID := by
    intro x hx
    have hx1 := List.mem_filter.1 hx
    have hx2 := List.mem_filter.1 ((hperm.mem_iff).1 hx1.1)
    exact ⟨by simpa using hx1.2, by simpa using hx2.2⟩
  have hgne : g.Pairwise fun a b => a.subNumber ≠ b.subNumber := by
    have := List.Pairwise.and_mem.1 hgP
    refine this.imp ?_
    rintro a b ⟨ha, hb, hab⟩
    rcases hmemg a ha with ⟨hak, har⟩
    rcases hmemg b hb with ⟨hbk, hbr⟩
    exact hab (har.trans hbr.symm) (hak.trans hbk.symm)
  have hperm2 := List.perm_insertionSort nodeRunGE g
  have hsorted : (List.insertionSort nodeRunGE g).Pairwise nodeRunGE :=
    List.sorted_insertionSort nodeRunGE g
  have hne2 : (List.insertionSort nodeRunGE g).Pairwise
      (fun a b => a.subNumber ≠ b.subNumber) :=
    (hperm2.pairwise_iff (fun hxy heq => hxy heq.symm)).2 hgne
  refine (hsorted.and hne2).imp ?_
  rintro a b ⟨hle, hne⟩
  exact lt_of_le_of_ne hle fun h => hne h.symm

/-- C3: whatever run-selecting query a loader passes to loadRun, the loaded
run maps each node to its NodeRun history sorted by sub-number in strictly
descending order, provided the stored node-run rows give each attempt of a
node within a run a distinct sub-number. -/
theorem loadRun_nodeRuns_sorted_desc (db : DB) (tx : Int) (rows : List WorkflowRun)
    (fl : Bool) (wr : WorkflowRun) (db1 : DB)
    (hok : loadRun db tx rows fl = .ok (wr, db1))
    (huniq : NodeRunRowsUnique db.nodeRunRows) :
    ∀ kv ∈ wr.workflowNodeRuns,
      kv.2.Pairwise fun a b => b.subNumber < a.subNumber := by
  match rows, hok with
  | r :: rest, hok =>
    simp only [loadRun] at hok
    by_cases hlock : (fl && db.locks.any fun p => p.1 == r.id && p.2 != tx) = true
    · rw [if_pos hlock] at hok
      exact absurd hok (by simp)
    · rw [if_neg hlock] at hok
      simp only [Except.ok.injEq, Prod.mk.injEq] at hok
      rcases hok with ⟨hwr, -⟩
      rw [← hwr]
      exact loadRunNodeRuns_pairwise db.nodeRunRows r.id huniq

def dbSorted : DB :=
  { projects := [{ id := 1, projectkey := "P" }],
    workflows := [{ id := 1, projectID := 1, name := "W" }],
    runRows := [{ id := 1, num := 1, projectID := 1, workflowID := 1,
                  status := "Building", start := 0, lastModified := 0,
                  workflow := { id := 1, projectKey := "P", name := "W" },
                  infos := [], workflowNodeRuns := [], tags := [] }],
    nodeRunRows :=
      [{ id := 10, workflowRunID := 1, workflowNodeID := 7, subNumber := 0,
         status := "Fail" },
       { id := 11, workflowRunID := 1, workflowNodeID := 7, subNumber := 1,
         status := "Building" }],
    tagRows := [], locks := [] }

def dbSortedRun : WorkflowRun :=
  { id := 1, num := 1, projectID := 1, workflowID := 1, status := "Building",
    start := 0, lastModified := 0,
    workflow := { id := 1, projectKey := "P", name := "W" },
    infos := [],
    workflowNodeRuns :=
      [(7, [{ id := 11, workflowRunID := 1, workflowNodeID := 7, subNumber := 1,
              status := "Building" },
            { id := 10, workflowRunID := 1, workflowNodeID := 7, subNumber := 0,
              status := "Fail" }])],
    tags := [] }

theorem loadRun_nodeRuns_sorted_desc_witness :
    List.Pairwise (fun a b => b.subNumber < a.subNumber)
      ([{ id := 11, workflowRunID := 1, workflowNodeID := 7, subNumber := 1,
          status := "Building" },
        { id := 10, workflowRunID := 1, workflowNodeID := 7, subNumber := 0,
          status := "Fail" }] : List WorkflowNodeRun) :=
  loadRun_nodeRuns_sorted_desc dbSorted 0 dbSorted.runRows false dbSortedRun dbSorted
    (by decide) (by unfold NodeRunRowsUnique; decide)
    (7, [{ id := 11, workflowRunID := 1, workflowNodeID := 7, subNumber := 1,
           status := "Building" },
         { id := 10, workflowRunID := 1, workflowNodeID := 7, subNumber := 0,
           status := "Fail" }])
    (by decide)

/-- C4: loadAndLockRunByID on a stored run whose row lock is held by another
transaction fails at once with the lock-conflict error; when no other
transaction holds the lock it returns the run while now holding the
exclusive row lock for the calling transaction. -/
theorem loadAndLockRunByID_nowait (db : DB) (tx id : Int) :
    ((∃ r ∈ db.runRows, r.id = id) →
      (∃ p ∈ db.locks, p.1 = id ∧ p.2 ≠ tx) →
        loadAndLockRunByID db tx id = .error .lockConflict) ∧
    ((∃ r ∈ db.runRows, r.id = id) →
      (∀ p ∈ db.locks, p.1 = id → p.2 = tx) →
        ∃ wr db1, loadAndLockRunByID db tx id = .ok (wr, db1) ∧
          wr.id = id ∧ (id, tx) ∈ db1.locks) := by
  have hne : (∃ r ∈ db.runRows, r.id = id) →
      ∃ r0 rest, db.runRows.filter (fun r => r.id == id) = r0 :: rest ∧ r0.id = id := by
    rintro ⟨r, hr, hid⟩
    have hmem : r ∈ db.runRows.filter fun r => r.id == id :=
      List.mem_filter.2 ⟨hr, by simpa using hid⟩
    match hft : db.runRows.filter fun r => r.id == id with
    | [] => rw [hft] at hmem; exact absurd hmem (by simp)
    | r0 :: rest =>
      have : r0 ∈ db.runRows.filter fun r => r.id == id := by
        rw [hft]; exact List.mem_cons_self r0 rest
      exact ⟨r0, rest, hft, by simpa using (List.mem_filter.1 this).2⟩
  constructor
  · rintro hex ⟨p, hp, hp1, hp2⟩
    rcases hne hex with ⟨r0, rest, hft, hid0⟩
    have hany : (db.locks.any fun q => q.1 == r0.id && q.2 != tx) = true := by
      refine List.any_eq_true.2 ⟨p, hp, ?_⟩
      simp [hid0, hp1, hp2]
    unfold loadAndLockRunByID
    rw [hft]
    simp [loadRun, hany]
  · rintro hex hall
    rcases hne hex with ⟨r0, rest, hft, hid0⟩
    have hany : (db.locks.any fun q => q.1 == r0.id && q.2 != tx) = false := by
      rw [List.any_eq_false]
      rintro p hp
      by_cases h1 : p.1 = id
      · have := hall p hp h1
        simp [this]
      · simp [hid0, h1]
    unfold loadAndLockRunByID
    rw [hft]
    refine ⟨{ r0 with
               workflowNodeRuns := loadRunNodeRuns db.nodeRunRows r0.id,
               tags := loadTagsByRunID db r0.id },
            { db with locks := (r0.id, tx) :: db.locks }, ?_, hid0, ?_⟩
    · simp [loadRun, hany]
    · simp [hid0]

def dbLockedElsewhere : DB :=
  { dbSorted with locks := [(1, 99)] }

theorem loadAndLockRunByID_nowait_witness :
    loadAndLockRunByID dbLockedElsewhere 2 1 = .error .lockConflict ∧
      ∃ wr db1, loadAndLockRunByID dbSorted 2 1 = .ok (wr, db1) ∧
        wr.id = 1 ∧ ((1 : Int), (2 : Int)) ∈ db1.locks :=
  ⟨(loadAndLockRunByID_nowait dbLockedElsewhere 2 1).1 (by decide) (by decide),
   (loadAndLockRunByID_nowait dbSorted 2 1).2 (by decide) (by decide)⟩

/-- A write issued against the workflow_run_tag table, recorded so that the
calls made by updateTags can be observed. -/
inductive TagWriteOp where
  | deleteTagsOf (runID : Int)
  | insertTags (rows : List WorkflowRunTag)
deriving DecidableEq, Repr

/-- Modelled from the spec: the workflow_run_tag table holds a run's tags as
a set of (workflowRunId, key, value) rows — "duplicates within one
replacement are not stored" — its key constraint being declared in SQL
migrations that are not under src/, so inserting a row already present
stores no second copy. -/
def insertTagRow (table : List WorkflowRunTag) (t : WorkflowRunTag) : List WorkflowRunTag :=
  if t ∈ table then table else table ++ [t]

/-- Embeds updateTags (dao_run.go lines 112-131): delete every tag row of the
run, stamp the run's id onto each in-memory tag, and bulk-insert the result,
skipping the insert call entirely when there is nothing to insert. Returns
the new table together with the write operations issued. -/
def updateTags (table : List WorkflowRunTag) (r : WorkflowRun) :
    List WorkflowRunTag × List TagWriteOp :=
  let table1 := table.filter fun t => !(t.workflowRunID == r.id)
  let tags := r.tags.map fun t => { t with workflowRunID := r.id }
  if tags.length > 0 then
    (tags.foldl insertTagRow table1, [.deleteTagsOf r.id, .insertTags tags])
  else
    (table1, [.deleteTagsOf r.id])

theorem foldl_insertTagRow_mem (tags : List WorkflowRunTag) (acc : List WorkflowRunTag)
    (t : WorkflowRunTag) :
    t ∈ tags.foldl insertTagRow acc ↔ t ∈ acc ∨ t ∈ tags := by
  induction tags generalizing acc with
  | nil => simp
  | cons a tags ih =>
    simp only [List.foldl_cons, ih, List.mem_cons]
    by_cases h : a ∈ acc
    · rw [insertTagRow, if_pos h]
      constructor
      · rintro (h1 | h2)
        · exact Or.inl h1
        · exact Or.inr (Or.inr h2)
      · rintro (h1 | rfl | h2)
        · exact Or.inl h1
        · exact Or.inl h
        · exact Or.inr h2
    · rw [insertTagRow, if_neg h]
      simp only [List.mem_append, List.mem_singleton]
      constructor
      · rintro ((h1 | rfl) | h2)
        · exact Or.inl h1
        · exact Or.inr (Or.inl rfl)
        · exact Or.inr (Or.inr h2)
      · rintro (h1 | rfl | h2)
        · exact Or.inl (Or.inl h1)
        · exact Or.inl (Or.inr rfl)
        · exact Or.inr h2

theorem foldl_insertTagRow_filter_nodup (tags : List WorkflowRunTag)
    (acc : List WorkflowRunTag) (p : WorkflowRunTag → Bool)
    (h : (acc.filter p).Nodup) :
    ((tags.foldl insertTagRow acc).filter p).Nodup := by
  induction tags generalizing acc with
  | nil => exact h
  | cons a tags ih =>
    refine ih _ ?_
    by_cases hmem : a ∈ acc
    · rw [insertTagRow, if_pos hmem]
      exact h
    · rw [insertTagRow, if_neg hmem, List.filter_append]
      by_cases hp : p a
      · have hsingle : List.filter p [a] = [a] := by simp [hp]
        rw [hsingle, List.nodup_append]
        refine ⟨h, List.nodup_singleton a, ?_⟩
        intro x hx hx2
        rcases List.mem_singleton.1 hx2 with rfl
        exact hmem (List.mem_filter.1 hx).1
      · have hsingle : List.filter p [a] = [] := by simp [hp]
        rw [hsingle, List.append_nil]
        exact h

/-- C6: updateTags deletes the run's tag rows and then inserts the freshly
stamped set; rows of other runs are untouched; duplicate key/value pairs
within one replacement end up as a single row (no duplicate rows for the
run); and when the new set is empty the delete is the only write issued —
no insert call is made. -/
theorem updateTags_full_replacement (table : List WorkflowRunTag) (r : WorkflowRun) :
    ((updateTags table r).1.filter fun t => t.workflowRunID == r.id).Nodup ∧
      (∀ t, t ∈ (updateTags table r).1 ↔
        (t ∈ table ∧ t.workflowRunID ≠ r.id) ∨
          t ∈ r.tags.map fun t0 => { t0 with workflowRunID := r.id }) ∧
      (r.tags = [] → (updateTags table r).2 = [.deleteTagsOf r.id]) ∧
      (r.tags ≠ [] → (updateTags table r).2 =
        [.deleteTagsOf r.id,
         .insertTags (r.tags.map fun t0 => { t0 with workflowRunID := r.id })]) := by
  have hbase : ((table.filter fun t => !(t.workflowRunID == r.id)).filter
      fun t => t.workflowRunID == r.id) = [] := by
    rw [List.filter_filter]
    apply List.filter_eq_nil_iff.2
    intro t _
    simp [Bool.and_comm]
  have hmem1 : ∀ t, t ∈ table.filter (fun t => !(t.workflowRunID == r.id)) ↔
      t ∈ table ∧ t.workflowRunID ≠ r.id := by
    intro t
    rw [List.mem_filter]
    simp
  refine ⟨?_, ?_, ?_, ?_⟩
  · unfold updateTags
    by_cases hlen : (r.tags.map fun t0 => { t0 with workflowRunID := r.id }).length > 0
    · rw [if_pos hlen]
      exact foldl_insertTagRow_filter_nodup _ _ _ (by rw [hbase]; exact List.nodup_nil)
    · rw [if_neg hlen]
      simp only
      rw [hbase]
      exact List.nodup_nil
  · intro t
    unfold updateTags
    by_cases hlen : (r.tags.map fun t0 => { t0 with workflowRunID := r.id }).length > 0
    · rw [if_pos hlen]
      simp only
      rw [foldl_insertTagRow_mem, hmem1]
    · rw [if_neg hlen]
      have : (r.tags.map fun t0 => { t0 with workflowRunID := r.id }) = [] := by
        cases hmap : r.tags.map fun t0 => { t0 with workflowRunID := r.id } with
        | nil => rfl
        | cons a l => rw [hmap] at hlen; exact absurd (by simp) hlen
      simp only
      rw [hmem1, this]
      simp
  · intro hnil
    unfold updateTags
    rw [hnil]
    simp
  · intro hne
    unfold updateTags
    have : (r.tags.map fun t0 => { t0 with workflowRunID := r.id }).length > 0 := by
      cases htags : r.tags with
      | nil => exact absurd htags hne
      | cons a l => simp [htags]
    rw [if_pos this]

def tagTableOther : List WorkflowRunTag :=
  [{ workflowRunID := 9, tag := "branch".data, value := "dev".data }]

def runDupTags : WorkflowRun :=
  { id := 3, num := 1, projectID := 1, workflowID := 1, status := "Building",
    start := 0, lastModified := 0,
    workflow := { id := 1, projectKey := "P", name := "W" },
    infos := [], workflowNodeRuns := [],
    tags := [{ workflowRunID := 0, tag := "branch".data, value := "main".data },
             { workflowRunID := 0, tag := "branch".data, value := "main".data }] }

def runNoTags : WorkflowRun :=
  { runDupTags with id := 4, tags := [] }

theorem updateTags_full_replacement_witness :
    ((updateTags tagTableOther runDupTags).1.filter
        fun t => t.workflowRunID == runDupTags.id).Nodup ∧
      (updateTags tagTableOther runNoTags).2 = [.deleteTagsOf runNoTags.id] ∧
      (updateTags tagTableOther runDupTags).2 =
        [.deleteTagsOf runDupTags.id,
         .insertTags (runDupTags.tags.map
           fun t0 => { t0 with workflowRunID := runDupTags.id })] :=
  ⟨(updateTags_full_replacement tagTableOther runDupTags).1,
   (updateTags_full_replacement tagTableOther runNoTags).2.2.1 (by decide),
   (updateTags_full_replacement tagTableOther runDupTags).2.2.2 (by decide)⟩

/-- Ordering used by the page query of LoadRuns: start time descending. -/
def runStartGE (a b : WorkflowRun) : Prop :=
  b.start ≤ a.start

instance : DecidableRel runStartGE := fun a b =>
  inferInstanceAs (Decidable (b.start ≤ a.start))

instance : IsTotal WorkflowRun runStartGE :=
  ⟨fun a b => le_total b.start a.start⟩

instance : IsTrans WorkflowRun runStartGE :=
  ⟨fun _ _ _ hab hbc => le_trans hbc hab⟩

/-- Embeds LoadRuns (dao_run.go lines 184-224): first a count query over the
matching runs; when the count is zero the function returns the empty result
at once, without issuing the page query; otherwise the page query returns
the matching runs ordered by start descending with the given limit and
offset, each run's tags are loaded, and runs, offset, limit and total count
are returned. The Bool records whether the page query was issued. -/
def LoadRuns (db : DB) (projectkey workflowname : String) (offset limit : Nat) :
    (List WorkflowRun × Nat × Nat × Nat) × Bool :=
  let matching := db.runRows.filter (runMatchesKeyName db projectkey workflowname)
  let count := matching.length
  if count == 0 then (([], 0, 0, 0), false)
  else
    let page := ((List.insertionSort runStartGE matching).drop offset).take limit
    let wruns := page.map fun wr => { wr with tags := loadTagsByRunID db wr.id }
    ((wruns, offset, limit, count), true)

def dbNoRuns : DB :=
  { projects := [{ id := 1, projectkey := "P" }],
    workflows := [{ id := 1, projectID := 1, name := "W" }],
    runRows := [], nodeRunRows := [], tagRows := [], locks := [] }

/-- C7 counterexample: a successful LoadRuns call over a workflow with no
matching runs, called with offset 5 and limit 10, returns offset 0 and
limit 0 — not the offset and limit that were passed in. -/
theorem LoadRuns_zero_count_drops_offset_counterexample :
    (LoadRuns dbNoRuns "P" "W" 5 10).1 = ([], 0, 0, 0) ∧
      (LoadRuns dbNoRuns "P" "W" 5 10).1 ≠ ([], 5, 10, 0) := by
  decide

/-- C7 amended: when the count of matching runs is positive, LoadRuns issues
the page query and the returned tuple carries the passed offset and limit
together with the total count; when the count is zero it short-circuits
without the page query and returns empty runs with zero in place of the
passed offset and limit. -/
theorem LoadRuns_pagination (db : DB) (projectkey workflowname : String)
    (offset limit : Nat) :
    (0 < (db.runRows.filter (runMatchesKeyName db projectkey workflowname)).length →
      ∃ runs, LoadRuns db projectkey workflowname offset limit =
        ((runs, offset, limit,
          (db.runRows.filter (runMatchesKeyName db projectkey workflowname)).length),
         true)) ∧
    ((db.runRows.filter (runMatchesKeyName db projectkey workflowname)).length = 0 →
      LoadRuns db projectkey workflowname offset limit = (([], 0, 0, 0), false)) := by
  constructor
  · intro hpos
    unfold LoadRuns
    rw [if_neg (by simpa using Nat.pos_iff_ne_zero.1 hpos)]
    exact ⟨_, rfl⟩
  · intro hzero
    unfold LoadRuns
    rw [if_pos (by simpa using hzero)]

theorem LoadRuns_pagination_witness :
    (∃ runs, LoadRuns dbSorted "P" "W" 2 7 =
      ((runs, 2, 7,
        (dbSorted.runRows.filter (runMatchesKeyName dbSorted "P" "W")).length), true)) ∧
      LoadRuns dbNoRuns "P" "W" 2 7 = (([], 0, 0, 0), false) :=
  ⟨(LoadRuns_pagination dbSorted "P" "W" 2 7).1 (by decide),
   (LoadRuns_pagination dbNoRuns "P" "W" 2 7).2 (by decide)⟩

/-- Does this tag row's run belong to a workflow with this name inside a
project with this key: the joins of the GetTagsAndValue subquery
(workflow_run_tag to workflow_run to workflow to project). -/
def tagRowMatches (db : DB) (key name : String) (t : WorkflowRunTag) : Bool :=
  db.runRows.any fun r =>
    r.id == t.workflowRunID &&
      (db.workflows.any fun w =>
        w.id == r.workflowID && w.name == name &&
          (db.projects.any fun p => p.id == w.projectID && p.projectkey == key))

/-- Ordering used by the GetTagsAndValue subquery: tag/value pairs by value
ascending. -/
def pairValueLE (a b : List Char × List Char) : Prop :=
  a.2 ≤ b.2

instance : DecidableRel pairValueLE := fun a b =>
  inferInstanceAs (Decidable (a.2 ≤ b.2))

instance : IsTotal (List Char × List Char) pairValueLE :=
  ⟨fun a b => le_total a.2 b.2⟩

instance : IsTrans (List Char × List Char) pairValueLE :=
  ⟨fun _ _ _ hab hbc => le_trans hab hbc⟩

/-- Embeds the subquery of GetTagsAndValue (dao_run.go lines 298-308): the
distinct (tag, value) pairs over the workflow's runs, ordered by value. -/
def tagPairsSorted (db : DB) (key name : String) : List (List Char × List Char) :=
  List.insertionSort pairValueLE
    (((db.tagRows.filter (tagRowMatches db key name)).map fun t => (t.tag, t.value)).dedup)

/-- Embeds GetTagsAndValue (dao_run.go lines 296-328): the outer query
groups the subquery's pairs by tag and aggregates each tag's values into
one comma-joined string (STRING_AGG in subquery order); the Go code then
splits every aggregate string on "," again and keys the result map by
tag. -/
def GetTagsAndValue (db : DB) (key name : String) :
    List (List Char × List (List Char)) :=
  (((tagPairsSorted db key name).map fun p => p.1).dedup).map fun tag =>
    (tag,
      ([','].intercalate
        (((tagPairsSorted db key name).filter fun p => p.1 == tag).map fun p => p.2)).splitOn ',')

def dbCommaTag : DB :=
  { projects := [{ id := 1, projectkey := "P" }],
    workflows := [{ id := 1, projectID := 1, name := "W" }],
    runRows := [{ id := 1, num := 1, projectID := 1, workflowID := 1,
                  status := "Success", start := 0, lastModified := 0,
                  workflow := { id := 1, projectKey := "P", name := "W" },
                  infos := [], workflowNodeRuns := [], tags := [] }],
    nodeRunRows := [],
    tagRows := [{ workflowRunID := 1, tag := "branch".data, value := "a,b".data }],
    locks := [] }

/-- C10: for a workflow whose single run carries the one tag value "a,b"
(which contains a comma), GetTagsAndValue returns that single stored value
split into the two entries "a" and "b", because the values are aggregated
into one comma-joined string and then split on commas. -/
theorem GetTagsAndValue_splits_comma_value :
    dbCommaTag.tagRows =
        [{ workflowRunID := 1, tag := "branch".data, value := "a,b".data }] ∧
      GetTagsAndValue dbCommaTag "P" "W" = [("branch".data, ["a".data, "b".data])] := by
  decide

def dbCommaSort : DB :=
  { dbCommaTag with
    tagRows := [{ workflowRunID := 1, tag := "k".data, value := "b,a".data }] }

/-- C8 counterexample: a workflow whose single run carries the one tag value
"b,a" for key "k". The distinct values observed for "k" are exactly the one
string "b,a", but GetTagsAndValue maps "k" to the two entries "b" and "a" —
neither the distinct observed values nor ascending-sorted. -/
theorem GetTagsAndValue_claim_counterexample :
    GetTagsAndValue dbCommaSort "P" "W" = [("k".data, ["b".data, "a".data])] ∧
      [(("k".data : List Char), ["b".data, "a".data])] ≠ [("k".data, ["b,a".data])] := by
  decide

/-- Modelled from the spec: workflow_sequences_nextval, the per-workflow
database sequence function called by nextRunNumber, is defined in SQL
migrations that are not under src/. The spec requires an "atomic, durable
increment scoped per workflow" that "never returns the same value twice for
the same workflow". The state maps each workflow id to the last value
handed out (none yet meaning 0), and one call atomically increments the
workflow's counter and returns the new value. -/
def workflowSequencesNextval (seq : List (Int × Int)) (wID : Int) :
    Int × List (Int × Int) :=
  let cur := ((seq.find? fun p => p.1 == wID).map fun p => p.2).getD 0
  (cur + 1, (wID, cur + 1) :: seq.filter fun p => !(p.1 == wID))

/-- Embeds nextRunNumber (dao_run.go lines 330-337): one call of the
database sequence function for the workflow's id. -/
def nextRunNumber (seq : List (Int × Int)) (w : Workflow) : Int × List (Int × Int) :=
  workflowSequencesNextval seq w.id

/-- One serialization of a set of nextRunNumber calls (the database executes
concurrent atomic increments in some serial order): each listed workflow
yields one call, and each call's workflow id is paired with the run number
it received. -/
def runNumberTrace (ws : List Workflow) (seq : List (Int × Int)) : List (Int × Int) :=
  match ws with
  | [] => []
  | w :: rest =>
    let r := nextRunNumber seq w
    (w.id, r.1) :: runNumberTrace rest r.2

/-- The value the sequence state currently holds for a workflow. -/
def seqValue (seq : List (Int × Int)) (wID : Int) : Int :=
  ((seq.find? fun p => p.1 == wID).map fun p => p.2).getD 0

theorem find_filter_other (seq : List (Int × Int)) (w wID : Int) (h : wID ≠ w) :
    ((seq.filter fun p => !(p.1 == w)).find? fun p => p.1 == wID) =
      (seq.find? fun p => p.1 == wID) := by
  induction seq with
  | nil => rfl
  | cons a rest ih =>
    have hsym : ¬w = wID := fun e => h e.symm
    by_cases ha : a.1 = w
    · simp [List.filter_cons, ha, hsym, ih]
    · by_cases hw : a.1 = wID
      · simp [List.filter_cons, ha, hw, h, ih]
      · simp [List.filter_cons, ha, hw, h, ih]

theorem seqValue_nextval (seq : List (Int × Int)) (w wID : Int) :
    seqValue (workflowSequencesNextval seq w).2 wID =
      if wID = w then seqValue seq w + 1 else seqValue seq wID := by
  by_cases h : wID = w
  · subst h
    simp [seqValue, workflowSequencesNextval, List.find?_cons]
  · have hsym : ¬w = wID := fun e => h e.symm
    rw [if_neg h]
    unfold seqValue workflowSequencesNextval
    rw [List.find?_cons_of_neg _ (by simp [hsym]), find_filter_other seq w wID h]

theorem runNumberTrace_outputs_above (ws : List Workflow) (seq : List (Int × Int)) :
    ∀ e ∈ runNumberTrace ws seq, seqValue seq e.1 < e.2 := by
  induction ws generalizing seq with
  | nil => intro e he; exact absurd he (by simp [runNumberTrace])
  | cons w rest ih =>
    intro e he
    rw [runNumberTrace] at he
    rcases List.mem_cons.1 he with rfl | htail
    · show seqValue seq w.id < seqValue seq w.id + 1
      exact lt_add_one _
    · have h1 := ih (nextRunNumber seq w).2 e htail
      have h2 : seqValue seq e.1 ≤ seqValue (nextRunNumber seq w).2 e.1 := by
        rw [nextRunNumber, seqValue_nextval]
        by_cases h : e.1 = w.id
        · rw [if_pos h, h]
          exact le_of_lt (lt_add_one _)
        · rw [if_neg h]
      exact lt_of_le_of_lt h2 h1

/-- C5: in every serialization of any set of nextRunNumber calls, two calls
for the same workflow never receive the same run number (the per-workflow
sequence increments atomically, so each call's value strictly exceeds every
value that workflow was given before). -/
theorem nextRunNumber_never_repeats (ws : List Workflow) (seq : List (Int × Int)) :
    (runNumberTrace ws seq).Pairwise fun a b => a.1 = b.1 → a.2 ≠ b.2 := by
  induction ws generalizing seq with
  | nil => exact List.Pairwise.nil
  | cons w rest ih =>
    rw [runNumberTrace]
    refine List.Pairwise.cons ?_ (ih _)
    intro e he heq
    have heq2 : w.id = e.1 := heq
    have h1 := runNumberTrace_outputs_above rest (nextRunNumber seq w).2 e he
    have h2 : seqValue (nextRunNumber seq w).2 e.1 = seqValue seq w.id + 1 := by
      rw [nextRunNumber, seqValue_nextval, ← heq2, if_pos rfl]
    rw [h2] at h1
    show seqValue seq w.id + 1 ≠ e.2
    exact ne_of_lt h1

/-- A persisted JSON blob column as the dao observes it after a scan: either
well-formed JSON for a value, or bytes that do not unmarshal; the encoding
itself is done by the external encoding/json package. -/
inductive JsonBlob (α : Type) where
  | wellFormed (val : α)
  | malformed
deriving DecidableEq

/-- Embeds json.Unmarshal as observed by Run.PostGet. -/
def jsonUnmarshal {α : Type} : JsonBlob α → Except DBError α
  | .wellFormed v => .ok v
  | .malformed => .error .serialization

/-- Embeds Run.PostGet (dao_run.go lines 84-110): the workflow and infos
columns are scanned as nullable strings; a NULL column is skipped entirely,
leaving the struct field at its prior (zero) value, while a non-NULL column
is unmarshalled — failure surfaces as a wrapped serialization error and
success replaces the field. -/
def postGet (r : WorkflowRun) (wcol : Option (JsonBlob Workflow))
    (icol : Option (JsonBlob (List WorkflowRunInfo))) : Except DBError WorkflowRun := do
  let r1 ← match wcol with
    | none => pure r
    | some b =>
      match jsonUnmarshal b with
      | .error e => Except.error e
      | .ok w => pure { r with workflow := w }
  match icol with
  | none => pure r1
  | some b =>
    match jsonUnmarshal b with
    | .error e => Except.error e
    | .ok i => pure { r1 with infos := i }

/-- C9: loading a run whose workflow or infos column is NULL succeeds and
leaves that field at its default (zero) value, while a present but
malformed blob in either column fails the load with a serialization
error (and a present well-formed blob replaces the field). -/
theorem postGet_null_defaults_malformed_errors (r : WorkflowRun)
    (icol : Option (JsonBlob (List WorkflowRunInfo))) :
    postGet r none none = .ok r ∧
      postGet r (some .malformed) icol = .error .serialization ∧
      postGet r none (some .malformed) = .error .serialization ∧
      (∀ w, postGet r (some (.wellFormed w)) none = .ok { r with workflow := w }) ∧
      (∀ i, postGet r none (some (.wellFormed i)) = .ok { r with infos := i }) :=
  ⟨rfl, rfl, rfl, fun _ => rfl, fun _ => rfl⟩

theorem tagPairsSorted_perm (db : DB) (key name : String) :
    List.Perm (tagPairsSorted db key name)
      (((db.tagRows.filter (tagRowMatches db key name)).map
        fun t => (t.tag, t.value)).dedup) :=
  List.perm_insertionSort pairValueLE _

theorem mem_tag_pairs (db : DB) (key name : String) (p : List Char × List Char) :
    p ∈ tagPairsSorted db key name ↔
      ∃ t ∈ db.tagRows, tagRowMatches db key name t = true ∧
        t.tag = p.1 ∧ t.value = p.2 := by
  rw [(tagPairsSorted_perm db key name).mem_iff]
  rw [List.mem_dedup, List.mem_map]
  constructor
  · rintro ⟨t, ht, rfl⟩
    rcases List.mem_filter.1 ht with ⟨h1, h2⟩
    exact ⟨t, h1, h2, rfl, rfl⟩
  · rintro ⟨t, h1, h2, hp1, hp2⟩
    refine ⟨t, List.mem_filter.2 ⟨h1, h2⟩, ?_⟩
    cases p
    cases hp1
    cases hp2
    rfl

theorem tagPairsSorted_pairwise (db : DB) (key name : String) :
    (tagPairsSorted db key name).Pairwise pairValueLE :=
  List.sorted_insertionSort pairValueLE _

theorem tagPairsSorted_nodup (db : DB) (key name : String) :
    (tagPairsSorted db key name).Nodup :=
  ((tagPairsSorted_perm db key name).nodup_iff).2 (List.nodup_dedup _)

theorem tagPairsSorted_filter_pairwise (db : DB) (key name : String) (tag : List Char) :
    ((tagPairsSorted db key name).filter fun p => p.1 == tag).Pairwise
      fun p q => p.2 ≤ q.2 ∧ p.2 ≠ q.2 := by
  have h1 : ((tagPairsSorted db key name).filter fun p => p.1 == tag).Pairwise pairValueLE :=
    List.Pairwise.sublist (List.filter_sublist _) (tagPairsSorted_pairwise db key name)
  have h2 : ((tagPairsSorted db key name).filter fun p => p.1 == tag).Pairwise
      fun p q => p ≠ q :=
    List.Pairwise.sublist (List.filter_sublist _) (tagPairsSorted_nodup db key name)
  have h3 := List.Pairwise.and_mem.1 (h1.and h2)
  refine h3.imp ?_
  rintro p q ⟨hp, hq, hle, hne⟩
  have hp1 : p.1 = tag := by simpa using (List.mem_filter.1 hp).2
  have hq1 : q.1 = tag := by simpa using (List.mem_filter.1 hq).2
  refine ⟨hle, ?_⟩
  intro h2eq
  exact hne (Prod.ext_iff.2 ⟨hp1.trans hq1.symm, h2eq⟩)

/-- C8 amended: provided no tag value of the workflow's matching runs
contains a comma, GetTagsAndValue maps each tag key observed across the
workflow's runs — and only those — to the list of the distinct values
observed for that key, sorted ascending with no value repeated. -/
theorem GetTagsAndValue_sorted_distinct (db : DB) (key name : String)
    (hcomma : ∀ t ∈ db.tagRows, tagRowMatches db key name t = true → ',' ∉ t.value) :
    (∀ kv ∈ GetTagsAndValue db key name,
        kv.2.Pairwise (fun a b => a ≤ b ∧ a ≠ b) ∧
          ∀ v, v ∈ kv.2 ↔ ∃ t ∈ db.tagRows,
            tagRowMatches db key name t = true ∧ t.tag = kv.1 ∧ t.value = v) ∧
      ∀ t ∈ db.tagRows, tagRowMatches db key name t = true →
        ∃ vs, (t.tag, vs) ∈ GetTagsAndValue db key name := by
  have hvals : ∀ tag, tag ∈ ((tagPairsSorted db key name).map fun p => p.1).dedup →
      ([','].intercalate
          (((tagPairsSorted db key name).filter fun p => p.1 == tag).map
            fun p => p.2)).splitOn ','
        = ((tagPairsSorted db key name).filter fun p => p.1 == tag).map fun p => p.2 := by
    intro tag htag
    apply List.splitOn_intercalate
    · intro l hl
      rcases List.mem_map.1 hl with ⟨p, hp, rfl⟩
      rcases (mem_tag_pairs db key name p).1 (List.mem_filter.1 hp).1 with
        ⟨t, ht, hm, _, hval⟩
      rw [← hval]
      exact hcomma t ht hm
    · rcases List.mem_map.1 (List.mem_dedup.1 htag) with ⟨p, hp, rfl⟩
      have hpf : p ∈ (tagPairsSorted db key name).filter fun q => q.1 == p.1 :=
        List.mem_filter.2 ⟨hp, by simp⟩
      exact List.ne_nil_of_mem (List.mem_map_of_mem _ hpf)
  constructor
  · intro kv hkv
    unfold GetTagsAndValue at hkv
    rcases List.mem_map.1 hkv with ⟨tag, htag, rfl⟩
    constructor
    · show (([','].intercalate _).splitOn ',').Pairwise _
      rw [hvals tag htag]
      exact List.pairwise_map.2 (tagPairsSorted_filter_pairwise db key name tag)
    · intro v
      show v ∈ ([','].intercalate _).splitOn ',' ↔ _
      rw [hvals tag htag, List.mem_map]
      constructor
      · rintro ⟨p, hp, rfl⟩
        rcases (mem_tag_pairs db key name p).1 (List.mem_filter.1 hp).1 with
          ⟨t, ht, hm, htagt, hval⟩
        have hp1 : p.1 = tag := by simpa using (List.mem_filter.1 hp).2
        exact ⟨t, ht, hm, htagt.trans hp1, hval⟩
      · rintro ⟨t, ht, hm, htagt, hvalt⟩
        refine ⟨(tag, v), List.mem_filter.2 ⟨?_, by simp⟩, rfl⟩
        rw [mem_tag_pairs]
        exact ⟨t, ht, hm, htagt, hvalt⟩
  · intro t ht hm
    have hp : ((t.tag, t.value) : List Char × List Char) ∈ tagPairsSorted db key name := by
      rw [mem_tag_pairs]
      exact ⟨t, ht, hm, rfl, rfl⟩
    have htag : t.tag ∈ ((tagPairsSorted db key name).map fun p => p.1).dedup :=
      List.mem_dedup.2 (List.mem_map_of_mem _ hp)
    exact ⟨_, List.mem_map_of_mem _ htag⟩

def dbBranchTags : DB :=
  { projects := [{ id := 1, projectkey := "P" }],
    workflows := [{ id := 1, projectID := 1, name := "W" }],
    runRows :=
      [{ id := 1, num := 1, projectID := 1, workflowID := 1, status := "Success",
         start := 0, lastModified := 0,
         workflow := { id := 1, projectKey := "P", name := "W" },
         infos := [], workflowNodeRuns := [], tags := [] },
       { id := 2, num := 2, projectID := 1, workflowID := 1, status := "Success",
         start := 1, lastModified := 1,
         workflow := { id := 1, projectKey := "P", name := "W" },
         infos := [], workflowNodeRuns := [], tags := [] }],
    nodeRunRows := [],
    tagRows := [{ workflowRunID := 1, tag := "branch".data, value := "main".data },
                { workflowRunID := 2, tag := "branch".data, value := "dev".data }],
    locks := [] }

theorem GetTagsAndValue_sorted_distinct_witness :
    List.Pairwise (fun a b : List Char => a ≤ b ∧ a ≠ b) ["dev".data, "main".data] ∧
      ("main".data ∈ (("branch".data, ["dev".data, "main".data]) :
          List Char × List (List Char)).2 ↔
        ∃ t ∈ dbBranchTags.tagRows, tagRowMatches dbBranchTags "P" "W" t = true ∧
          t.tag = "branch".data ∧ t.value = "main".data) ∧
      ∃ vs, (("branch".data : List Char), vs) ∈ GetTagsAndValue dbBranchTags "P" "W" :=
  ⟨(((GetTagsAndValue_sorted_distinct dbBranchTags "P" "W" (by decide)).1
      ("branch".data, ["dev".data, "main".data]) (by decide)).1 :
        List.Pairwise (fun a b : List Char => a ≤ b ∧ a ≠ b) ["dev".data, "main".data]),
   ((GetTagsAndValue_sorted_distinct dbBranchTags "P" "W" (by decide)).1
      ("branch".data, ["dev".data, "main".data]) (by decide)).2 "main".data,
   (GetTagsAndValue_sorted_distinct dbBranchTags "P" "W" (by decide)).2
      { workflowRunID := 1, tag := "branch".data, value := "main".data }
      (by decide) (by decide)⟩

end Cds
